import Mathlib

/-
A shallow embedding of src/entity.ts, the durable-entity batch processor:
the data model, the JavaScript/JSON primitives the source delegates to
(bundled as an explicit parameter record), the per-request context operations,
the method-dispatch helper, and the batch driver, together with theorems about
the behavior of each part.

Embedding conventions:
- Machine state is passed explicitly; the mutable accumulator of the source
  (returnState : EntityState) becomes a value threaded through every operation.
- The driver loop of Entity.handle contains no `await`, so the whole loop runs
  synchronously on the JavaScript event loop; the continuation of a dispatch
  that suspended at `await result` is queued and can only run after the loop.
  The model makes that queue explicit: `Entity.handle` returns the accumulator
  as it stands at `context.done` together with the pending continuations, and
  `drainMicrotasks` runs them afterwards in queue order (the schedule in which
  every awaited promise is already resolved).
- JSON.parse failures are modeled as `none` where the source would throw; every
  theorem that depends on a successful parse carries that success as a
  hypothesis.
-/

set_option maxHeartbeats 1000000

namespace Durable

/-- An immutable pair identifying one entity instance (class EntityId). -/
structure EntityId where
  name : String
  key : String
  deriving DecidableEq

/-- One operation request of a batch (class RequestMessage): an operation name
and an optional serialized input. -/
structure RequestMessage where
  name : String
  input : Option String
  deriving DecidableEq

/-- Per-request outcome record (class OperationResult): failure flag, elapsed
milliseconds, optional serialized payload. -/
structure OperationResult where
  isError : Bool
  duration : Nat
  result : Option String
  deriving DecidableEq

/-- An outgoing fire-and-forget message (class Signal). -/
structure Signal where
  target : EntityId
  name : String
  input : String
  deriving DecidableEq

/-- The single mutable accumulator shared by the whole batch (class EntityState
with its two ledgers).  `results` models a JavaScript array that is grown both
by `push` and by assignment `results[i] = r`, hence entries are Option-valued:
a `none` entry is a hole. -/
structure EntityState where
  entityExists : Bool
  entityState : Option String
  results : List (Option OperationResult)
  signals : List Signal

/-- The entityTrigger binding payload (class DurableEntityBindingInfo); the
source field `exists` is reserved in Lean and is written `exists_` here. -/
structure DurableEntityBindingInfo where
  self : EntityId
  exists_ : Bool
  state : Option String
  batch : List RequestMessage

/-- JavaScript truthiness of a string: the empty string is falsy. -/
def truthyStr (s : String) : Bool := s != ""

/-- JavaScript truthiness of a possibly-undefined string. -/
def truthyOptStr : Option String → Bool
  | none => false
  | some s => truthyStr s

/-- Read `l[i]` of a JavaScript array: out of bounds or a hole is undefined. -/
def getIdx : List (Option OperationResult) → Nat → Option OperationResult
  | [], _ => none
  | x :: _, 0 => x
  | _ :: t, n + 1 => getIdx t n

/-- The driver's check `!returnState.results[i]` negated: an OperationResult
object is always truthy, so entry `i` is truthy exactly when it is set. -/
def isSet (l : List (Option OperationResult)) (i : Nat) : Bool := (getIdx l i).isSome

/-- Assignment `l[i] = r` on a JavaScript array, extending with holes when the
index is past the end. -/
def setIdx : List (Option OperationResult) → Nat → OperationResult → List (Option OperationResult)
  | [], 0, r => [some r]
  | [], n + 1, r => none :: setIdx [] n r
  | _ :: t, 0, r => some r :: t
  | x :: t, n + 1, r => x :: setIdx t n r

/-- Outcome of the JavaScript call `entity[operationName](...input)` inside
dispatch: a plain value, a promise that later resolves, a promise that later
rejects, or a synchronous throw.  `selfAfter` is the entity object as left by
the method body. -/
inductive InvokeResult (V : Type) where
  | sync (ret : V) (selfAfter : V)
  | promise (ret : V) (selfAfter : V)
  | promiseRaise
  | raise

/-- The JavaScript/JSON primitives the source delegates to, over an abstract
value type `V` (TypeScript `unknown`): JSON.stringify and JSON.parse (a failed
parse is `none`; the source throws there), stringify restricted to a string and
to an argument array, value truthiness, argument spread, Object.assign, the
empty object literal, the check `typeof entity[name] === "function"`, and
method invocation. -/
structure JsRuntime (V : Type) where
  encode : V → String
  decode : String → Option V
  encodeString : String → String
  encodeList : List V → String
  truthy : V → Bool
  toArgs : V → Option (List V)
  assign : V → V → V
  emptyObj : V
  hasMethod : V → String → Bool
  invoke : V → String → List V → InvokeResult V

/-- Entity.destructOnExit (entity.ts:65-68): clear the existence flag and the
state blob. -/
def Entity.destructOnExit (batchState : EntityState) : EntityState :=
  { batchState with entityExists := false, entityState := none }

/-- Entity.getInput (entity.ts:70-75): parse the request input when it is
truthy, otherwise undefined. -/
def Entity.getInput {V : Type} (R : JsRuntime V) (currentRequest : RequestMessage) : Option V :=
  match currentRequest.input with
  | some s => if truthyStr s then R.decode s else none
  | none => none

/-- Entity.getState (entity.ts:77-84): decode the state blob when it is truthy,
else fall back to the initializer's result, else no value. -/
def Entity.getState {V : Type} (R : JsRuntime V) (returnState : EntityState)
    (initializer : Option V) : Option V :=
  match returnState.entityState with
  | some s => if truthyStr s then R.decode s else initializer
  | none => initializer

/-- Entity.return (entity.ts:86-89); spelled returnValue because `return` is
reserved in Lean.  Sets the existence flag and pushes a success result. -/
def Entity.returnValue {V : Type} (R : JsRuntime V) (dur : Nat) (returnState : EntityState)
    (result : V) : EntityState :=
  { returnState with
    entityExists := true
    results := returnState.results ++ [some ⟨false, dur, some (R.encode result)⟩] }

/-- Entity.setState (entity.ts:91-94): store the encoded state and set the
existence flag. -/
def Entity.setState {V : Type} (R : JsRuntime V) (returnState : EntityState) (state : V) :
    EntityState :=
  { returnState with entityExists := true, entityState := some (R.encode state) }

/-- Entity.signalEntity, explicit shape (entity.ts:99-113, the branch where
typeof arg2 === "string"): `operationInput` is the stringified third argument
when that argument is truthy, else the empty string; the pushed Signal then
stringifies `operationInput` once more when it is non-empty. -/
def Entity.signalEntity {V : Type} (R : JsRuntime V) (returnState : EntityState)
    (entityId : EntityId) (arg2 : String) (arg3 : Option V) : EntityState :=
  let operationName := arg2
  let operationInput : String :=
    match arg3 with
    | some v => if R.truthy v then R.encode v else ""
    | none => ""
  { returnState with
    signals := returnState.signals ++
      [⟨entityId, operationName,
        if truthyStr operationInput then R.encodeString operationInput else ""⟩] }

/-- Result of running the body of the async Entity.dispatch up to its first
suspension point: `rejected` when a throw inside the async body turns into a
rejected promise (always before any accumulator mutation), `completed` when the
method returned a plain value so dispatch also ran setState and return
synchronously, `suspended` when the method returned a promise that later
resolves (setState and return are left to a continuation), and
`suspendedRejection` when that promise later rejects (nothing runs after the
await). -/
inductive DispatchOutcome (V : Type) where
  | rejected
  | completed (ret : V) (selfAfter : V)
  | suspended (ret : V) (selfAfter : V)
  | suspendedRejection

/-- Entity.dispatch (entity.ts:142-165): guard the operation name, read the
state with an empty-object initializer, overlay it on a fresh instance, guard
the method, spread the parsed input as arguments and invoke. -/
def Entity.dispatchCore {V : Type} (R : JsRuntime V) (currentRequest : RequestMessage)
    (returnState : EntityState) (entityFactory : Unit → V) : DispatchOutcome V :=
  let operationName := currentRequest.name
  if !truthyStr operationName then .rejected
  else
    match Entity.getState R returnState (some R.emptyObj) with
    | none => .rejected
    | some state =>
      let entity := R.assign (entityFactory ()) state
      if !R.hasMethod entity operationName then .rejected
      else
        match Entity.getInput R currentRequest with
        | none => .rejected
        | some input =>
          match R.toArgs input with
          | none => .rejected
          | some args =>
            match R.invoke entity operationName args with
            | .raise => .rejected
            | .sync ret selfAfter => .completed ret selfAfter
            | .promise ret selfAfter => .suspended ret selfAfter
            | .promiseRaise => .suspendedRejection

/-- One call a user operation makes on its DurableEntityContext: the
state-touching surface built by getCurrentDurableEntityContext (entity.ts:47-63).
The read-only members and the values read back are not tracked, because a trace
quantified over all act lists already accounts for any data dependence. -/
inductive UserAct (V : Type) where
  | getSt (initializer : Option V)
  | setSt (v : V)
  | retVal (v : V)
  | destructOnExit
  | signalE (target : EntityId) (name : String) (input : Option V)

/-- Effect of one context call on the shared accumulator. -/
def applyAct {V : Type} (R : JsRuntime V) (dur : Nat) (s : EntityState) : UserAct V → EntityState
  | .getSt _ => s
  | .setSt v => Entity.setState R s v
  | .retVal v => Entity.returnValue R dur s v
  | .destructOnExit => Entity.destructOnExit s
  | .signalE t n i => Entity.signalEntity R s t n i

/-- One request's user function as the driver observes it: either it performs a
trace of context calls synchronously and then returns normally or throws the
given error value, or it delegates to the async dispatch helper, in which case
its own value is a promise the driver never awaits. -/
inductive UserProgram (V : Type) where
  | direct (acts : List (UserAct V)) (thrown : Option V)
  | delegate (entityFactory : Unit → V)

/-- The synchronous part of one `this.fn(context)` call (entity.ts:33): the
accumulator it leaves, the error it threw synchronously (if any), and the
continuation a suspended dispatch queued on the microtask queue (if any).  A
rejection of the async dispatch is not a synchronous throw and leaves no error
here. -/
def runBody {V : Type} (R : JsRuntime V) (dur : Nat) (req : RequestMessage) (p : UserProgram V)
    (s : EntityState) : EntityState × Option V × Option (EntityState → EntityState) :=
  match p with
  | .direct acts thrown => (acts.foldl (applyAct R dur) s, thrown, none)
  | .delegate entityFactory =>
    match Entity.dispatchCore R req s entityFactory with
    | .rejected => (s, none, none)
    | .completed ret selfAfter =>
      (Entity.returnValue R dur (Entity.setState R s selfAfter) ret, none, none)
    | .suspended ret selfAfter =>
      (s, none, some fun s2 => Entity.returnValue R dur (Entity.setState R s2 selfAfter) ret)
    | .suspendedRejection => (s, none, some fun s2 => s2)

/-- The driver's per-request normalization (entity.ts:34-41): synthesize an
empty success at entry `i` when the request produced no result entry there, or
overwrite entry `i` with a failure when the user function threw synchronously. -/
def normalize {V : Type} (R : JsRuntime V) (dur : Nat) (i : Nat) (s1 : EntityState)
    (thrown : Option V) : EntityState :=
  match thrown with
  | none =>
    if isSet s1.results i then s1
    else { s1 with results := setIdx s1.results i ⟨false, dur, none⟩ }
  | some e => { s1 with results := setIdx s1.results i ⟨true, dur, some (R.encode e)⟩ }

/-- One iteration of the driver loop (entity.ts:28-42) for request `i`. -/
def runRequest {V : Type} (R : JsRuntime V) (dur : Nat) (i : Nat) (req : RequestMessage)
    (p : UserProgram V) (s : EntityState) : EntityState × Option (EntityState → EntityState) :=
  let b := runBody R dur req p s
  (normalize R dur i b.1 b.2.1, b.2.2)

/-- The driver loop from request `i` on, also collecting the microtask
continuations of un-awaited suspended dispatches. -/
def handleLoop {V : Type} (R : JsRuntime V) (dur : Nat → Nat) (prog : Nat → UserProgram V) :
    List RequestMessage → Nat → EntityState → List (EntityState → EntityState) →
    EntityState × List (EntityState → EntityState)
  | [], _, s, pend => (s, pend)
  | req :: rest, i, s, pend =>
    let rr := runRequest R (dur i) i req (prog i) s
    handleLoop R dur prog rest (i + 1) rr.1 (pend ++ rr.2.toList)

/-- Entity.handle (entity.ts:16-45): seed the accumulator from the binding and
run the batch loop.  The first component is the accumulator as handed to
context.done; the second is the microtask queue still pending at that moment. -/
def Entity.handle {V : Type} (R : JsRuntime V) (dur : Nat → Nat) (prog : Nat → UserProgram V)
    (entityBinding : DurableEntityBindingInfo) : EntityState × List (EntityState → EntityState) :=
  handleLoop R dur prog entityBinding.batch 0
    { entityExists := entityBinding.exists_
      entityState := entityBinding.state
      results := []
      signals := [] } []

/-- Run the pending continuations in queue order: the event loop drains
microtasks only after handle's synchronous loop has finished and context.done
has been called. -/
def drainMicrotasks (out : EntityState × List (EntityState → EntityState)) :
    EntityState :=
  out.2.foldl (fun s c => c s) out.1

/-- Escape of a character list as inside a JSON string literal. -/
def escapeJsonChars : List Char → List Char
  | [] => []
  | c :: t => if c = '"' ∨ c = '\\' then '\\' :: c :: escapeJsonChars t else c :: escapeJsonChars t

/-- JSON.stringify of a string value. -/
def jsonQuote (s : String) : String := ⟨'"' :: (escapeJsonChars s.data ++ ['"'])⟩

/-- Inverse of escapeJsonChars; fails on a bare quote, backslash or trailing
escape. -/
def unescapeJsonChars : List Char → Option (List Char)
  | [] => some []
  | '\\' :: c :: t => (unescapeJsonChars t).map (c :: ·)
  | c :: t => if c = '"' ∨ c = '\\' then none else (unescapeJsonChars t).map (c :: ·)

/-- JSON.parse producing a string value; anything else counts as a failed
parse. -/
def jsonUnquote (s : String) : Option String :=
  match s.data with
  | '"' :: rest =>
    if rest.getLast? = some '"' then (unescapeJsonChars rest.dropLast).map (fun l => ⟨l⟩)
    else none
  | _ => none

/-- A concrete JsRuntime over string values, used to evaluate the model at
explicit inputs: JSON string encoding, character spread for arguments
(JavaScript spreads a string into its characters), Object.assign modeled as an
opaque merge, and a fixed method surface with a single method "go" whose
invocation returns a promise that later resolves. -/
def RStr : JsRuntime String where
  encode := jsonQuote
  decode := jsonUnquote
  encodeString := jsonQuote
  encodeList := fun xs => "[" ++ String.intercalate "," (xs.map jsonQuote) ++ "]"
  truthy := truthyStr
  toArgs := fun s => some (s.data.map fun c => String.mk [c])
  assign := fun target src => target ++ src
  emptyObj := ""
  hasMethod := fun _ m => m == "go"
  invoke := fun _ m _ => if m == "go" then .promise "ok" "after" else .raise

/-- Value of one JavaScript property: a data value, a function running
business logic, or the capture stub `(...args) => ({operationName: p,
operationContent: args})` installed by createEntityProxy (the recorded
operation name is baked into the stub). -/
inductive PropVal (V : Type) where
  | data (v : V)
  | func (f : List V → V)
  | stub (opName : String)

/-- A JavaScript object as seen through Object.getOwnPropertyNames and
Object.getPrototypeOf: `levels.head?` holds the object's own properties in
insertion order, the tail holds each prototype's own properties along the
chain. -/
structure JsObj (V : Type) where
  levels : List (List (String × PropVal V))

/-- First association for `p` in a single property list. -/
def assocFind {V : Type} : List (String × PropVal V) → String → Option (PropVal V)
  | [], _ => none
  | (q, v) :: t, p => if q = p then some v else assocFind t p

/-- Property assignment inside one property list: overwrite in place, or append
when absent (JavaScript keeps insertion order). -/
def assocSet {V : Type} : List (String × PropVal V) → String → PropVal V →
    List (String × PropVal V)
  | [], p, v => [(p, v)]
  | (q, w) :: t, p, v => if q = p then (q, v) :: t else (q, w) :: assocSet t p v

/-- Property lookup through the prototype chain (own level first). -/
def levelsLookup {V : Type} : List (List (String × PropVal V)) → String → Option (PropVal V)
  | [], _ => none
  | l :: ls, p =>
    match assocFind l p with
    | some v => some v
    | none => levelsLookup ls p

/-- The lookup `entityObject[p]` of the source. -/
def JsObj.lookup {V : Type} (o : JsObj V) (p : String) : Option (PropVal V) :=
  levelsLookup o.levels p

/-- The assignment `entityObject[p] = v` of the source: it always writes an own
property, shadowing any prototype definition. -/
def JsObj.setOwn {V : Type} (o : JsObj V) (p : String) (v : PropVal V) : JsObj V :=
  match o.levels with
  | [] => ⟨[[(p, v)]]⟩
  | l :: ls => ⟨assocSet l p v :: ls⟩

/-- The property-name collection of createEntityProxy (entity.ts:116-121): own
property names of the object and of every prototype along the chain, in chain
order, duplicates kept. -/
def collectProps {V : Type} (o : JsObj V) : List String :=
  (o.levels.map (fun l => l.map Prod.fst)).flatten

/-- The check `typeof entityObject[p] === "function"`: business functions and
already-installed stubs are both functions. -/
def isFunctionProp {V : Type} : Option (PropVal V) → Bool
  | some (.func _) => true
  | some (.stub _) => true
  | _ => false

/-- The forEach body of createEntityProxy (entity.ts:123-132): when property
`p` currently resolves to a function, overwrite it on the object itself with
the capture stub for `p`. -/
def stubStep {V : Type} (obj : JsObj V) (p : String) : JsObj V :=
  if isFunctionProp (obj.lookup p) then obj.setOwn p (.stub p) else obj

/-- createEntityProxy (entity.ts:115-134): walk the collected property names
and overwrite every function-valued one with a capture stub on the object
itself.  The source returns the very object it mutated; under explicit state
passing that object is the returned value. -/
def createEntityProxy {V : Type} (entityObject : JsObj V) : JsObj V :=
  (collectProps entityObject).foldl stubStep entityObject

/-- Outcome of the method call the typed-shape callback performs on the proxy:
a captured call descriptor from a stub, a business value from an un-stubbed
function, or a throw when the property is not callable. -/
inductive CallOut (V : Type) where
  | captured (opName : String) (args : List V)
  | business (v : V)
  | missing

/-- The call `proxy.m(...args)` performed by the typed-shape callback. -/
def JsObj.call {V : Type} (o : JsObj V) (m : String) (args : List V) : CallOut V :=
  match o.lookup m with
  | some (.stub n) => .captured n args
  | some (.func f) => .business (f args)
  | some (.data _) => .missing
  | none => .missing

/-- Entity.signalEntity, typed shape (entity.ts:105-113): proxy the
caller-supplied object, run the callback (here: the call of method `m` with
`args`), and push a Signal from the captured descriptor; `operationContent` is
the raw argument array, always truthy, so it is stringified once on push.  The
second component is the caller's object after the call (the proxy, because the
source mutates the object in place and returns it).  A callback result that is
not a captured descriptor is out of the modeled behavior (`none`). -/
def Entity.signalEntityTyped {V : Type} (R : JsRuntime V) (returnState : EntityState)
    (entityId : EntityId) (entityObject : JsObj V) (m : String) (args : List V) :
    Option (EntityState × JsObj V) :=
  let proxy := createEntityProxy entityObject
  match proxy.call m args with
  | .captured n xs =>
    some
      ({ returnState with
          signals := returnState.signals ++ [⟨entityId, n, R.encodeList xs⟩] }, proxy)
  | _ => none

theorem getIdx_of_le (l : List (Option OperationResult)) (i : Nat) (h : l.length ≤ i) :
    getIdx l i = none := by
  induction l generalizing i with
  | nil => cases i <;> rfl
  | cons x t ih =>
    cases i with
    | zero => simp at h
    | succ n => exact ih n (by simpa using h)

theorem getIdx_mem (l : List (Option OperationResult)) (i : Nat) (h : i < l.length) :
    getIdx l i ∈ l := by
  induction l generalizing i with
  | nil => simp at h
  | cons x t ih =>
    cases i with
    | zero => exact List.mem_cons_self x t
    | succ n => exact List.mem_cons_of_mem x (ih n (by simpa using h))

theorem setIdx_append (l : List (Option OperationResult)) (r : OperationResult) :
    setIdx l l.length r = l ++ [some r] := by
  induction l with
  | nil => rfl
  | cons y t ih => simp [setIdx, ih]

theorem setIdx_length_of_lt (l : List (Option OperationResult)) (i : Nat) (r : OperationResult)
    (h : i < l.length) : (setIdx l i r).length = l.length := by
  induction l generalizing i with
  | nil => simp at h
  | cons y t ih =>
    cases i with
    | zero => simp [setIdx]
    | succ n => simp [setIdx, ih n (by simpa using h)]

theorem mem_setIdx (l : List (Option OperationResult)) (i : Nat) (r : OperationResult)
    (x : Option OperationResult) (h : i < l.length) (hx : x ∈ setIdx l i r) :
    x = some r ∨ x ∈ l := by
  induction l generalizing i with
  | nil => simp at h
  | cons y t ih =>
    cases i with
    | zero =>
      rcases List.mem_cons.1 (by simpa [setIdx] using hx) with h1 | h1
      · exact Or.inl h1
      · exact Or.inr (List.mem_cons_of_mem y h1)
    | succ n =>
      rcases List.mem_cons.1 (by simpa [setIdx] using hx) with h1 | h1
      · exact Or.inr (h1 ▸ List.mem_cons_self y t)
      · rcases ih n (by simpa using h) h1 with h2 | h2
        · exact Or.inl h2
        · exact Or.inr (List.mem_cons_of_mem y h2)

/-- Whether a context call is a call of `return`. -/
def isRetVal {V : Type} : UserAct V → Bool
  | .retVal _ => true
  | _ => false

/-- How many times a trace calls `return` (each call pushes one ledger entry). -/
def retCount {V : Type} (acts : List (UserAct V)) : Nat := (acts.filter isRetVal).length

theorem applyAct_results_shape {V : Type} (R : JsRuntime V) (dur : Nat) (s : EntityState)
    (a : UserAct V) :
    (isRetVal a = false ∧ (applyAct R dur s a).results = s.results) ∨
    (isRetVal a = true ∧ ∃ r : OperationResult,
      r.isError = false ∧ (applyAct R dur s a).results = s.results ++ [some r]) := by
  cases a with
  | getSt i => exact Or.inl ⟨rfl, rfl⟩
  | setSt v => exact Or.inl ⟨rfl, rfl⟩
  | retVal v => exact Or.inr ⟨rfl, ⟨⟨false, dur, some (R.encode v)⟩, rfl, rfl⟩⟩
  | destructOnExit => exact Or.inl ⟨rfl, rfl⟩
  | signalE t n i => exact Or.inl ⟨rfl, rfl⟩

theorem foldl_applyAct_results {V : Type} (R : JsRuntime V) (dur : Nat)
    (acts : List (UserAct V)) :
    ∀ s : EntityState, ∃ l,
      (acts.foldl (applyAct R dur) s).results = s.results ++ l ∧
      l.length = retCount acts ∧ ∀ x ∈ l, x.isSome = true := by
  induction acts with
  | nil => exact fun s => ⟨[], by simp, by simp [retCount], by simp⟩
  | cons a rest ih =>
    intro s
    rcases ih (applyAct R dur s a) with ⟨l, hl, hlen, hsome⟩
    rcases applyAct_results_shape R dur s a with ⟨hna, hres⟩ | ⟨hya, r, _, hres⟩
    · refine ⟨l, ?_, ?_, hsome⟩
      · rw [List.foldl_cons, hl, hres]
      · rw [hlen]; simp [retCount, List.filter_cons, hna]
    · refine ⟨some r :: l, ?_, ?_, ?_⟩
      · rw [List.foldl_cons, hl, hres, List.append_assoc]; rfl
      · simp only [List.length_cons, hlen]; simp [retCount, List.filter_cons, hya]
      · intro x hx
        rcases List.mem_cons.1 hx with h | h
        · simp [h]
        · exact hsome x h

/-- Whether a context call leaves the state blob untouched (everything except
setState and destructOnExit does). -/
def preservesState {V : Type} : UserAct V → Bool
  | .setSt _ => false
  | .destructOnExit => false
  | _ => true

theorem applyAct_entityState {V : Type} (R : JsRuntime V) (dur : Nat) (s : EntityState)
    (a : UserAct V) (h : preservesState a = true) :
    (applyAct R dur s a).entityState = s.entityState := by
  cases a <;> simp_all [applyAct, preservesState, Entity.returnValue, Entity.signalEntity]

theorem foldl_applyAct_entityState {V : Type} (R : JsRuntime V) (dur : Nat)
    (acts : List (UserAct V)) :
    ∀ s : EntityState, (∀ a ∈ acts, preservesState a = true) →
      (acts.foldl (applyAct R dur) s).entityState = s.entityState := by
  induction acts with
  | nil => exact fun s _ => rfl
  | cons a rest ih =>
    intro s h
    rw [List.foldl_cons, ih _ (fun b hb => h b (List.mem_cons_of_mem a hb)),
      applyAct_entityState R dur s a (h a (List.mem_cons_self a rest))]

theorem normalize_entityState {V : Type} (R : JsRuntime V) (dur i : Nat) (s1 : EntityState)
    (thrown : Option V) : (normalize R dur i s1 thrown).entityState = s1.entityState := by
  cases thrown with
  | none => simp only [normalize]; split <;> rfl
  | some e => rfl

/-- Whether a user program leaves the state blob untouched: a direct trace of
state-preserving context calls does; delegation to dispatch is excluded because
dispatch writes the state back. -/
def progPreservesState {V : Type} : UserProgram V → Bool
  | .direct acts _ => acts.all preservesState
  | .delegate _ => false

theorem runRequest_entityState {V : Type} (R : JsRuntime V) (dur i : Nat) (req : RequestMessage)
    (p : UserProgram V) (s : EntityState) (h : progPreservesState p = true) :
    (runRequest R dur i req p s).1.entityState = s.entityState := by
  cases p with
  | direct acts thrown =>
    have hacts : ∀ a ∈ acts, preservesState a = true := by
      simpa [progPreservesState, List.all_eq_true] using h
    show (normalize R dur i (acts.foldl (applyAct R dur) s) thrown).entityState = s.entityState
    rw [normalize_entityState, foldl_applyAct_entityState R dur acts s hacts]
  | delegate f => simp [progPreservesState] at h

theorem handleLoop_entityState {V : Type} (R : JsRuntime V) (dur : Nat → Nat)
    (prog : Nat → UserProgram V) (h : ∀ j, progPreservesState (prog j) = true) :
    ∀ (batch : List RequestMessage) (i : Nat) (s : EntityState)
      (pend : List (EntityState → EntityState)),
      (handleLoop R dur prog batch i s pend).1.entityState = s.entityState := by
  intro batch
  induction batch with
  | nil => intro i s pend; rfl
  | cons req rest ih =>
    intro i s pend
    show (handleLoop R dur prog rest (i + 1) (runRequest R (dur i) i req (prog i) s).1
      (pend ++ (runRequest R (dur i) i req (prog i) s).2.toList)).1.entityState = s.entityState
    rw [ih, runRequest_entityState R (dur i) i req (prog i) s (h i)]

/-- A user program is well behaved when it calls `return` at most once for its
request (the context contract: `return` marks the one ledger entry of the
current request); dispatch delegation always is. -/
def wellBehaved {V : Type} : UserProgram V → Bool
  | .direct acts _ => decide (retCount acts ≤ 1)
  | .delegate _ => true

theorem normalize_results {V : Type} (R : JsRuntime V) (dur i : Nat) (s1 : EntityState)
    (thrown : Option V) (h : s1.results.length = i ∨ s1.results.length = i + 1)
    (hsome : ∀ x ∈ s1.results, x.isSome = true) :
    (normalize R dur i s1 thrown).results.length = i + 1 ∧
    ∀ x ∈ (normalize R dur i s1 thrown).results, x.isSome = true := by
  rcases h with h | h
  · have hunset : isSet s1.results i = false := by
      simp [isSet, getIdx_of_le s1.results i (le_of_eq h)]
    have happ : ∀ r : OperationResult, setIdx s1.results i r = s1.results ++ [some r] := by
      intro r; rw [← h]; exact setIdx_append s1.results r
    have hboth : ∀ r : OperationResult,
        (s1.results ++ [some r]).length = i + 1 ∧
        ∀ x ∈ s1.results ++ [some r], x.isSome = true := by
      intro r
      constructor
      · simp [h]
      · intro x hx
        rcases List.mem_append.1 hx with hx | hx
        · exact hsome x hx
        · simp at hx; simp [hx]
    cases thrown with
    | none => simp only [normalize, hunset, Bool.false_eq_true, if_false, happ]; exact hboth _
    | some e => simp only [normalize, happ]; exact hboth _
  · have hlt : i < s1.results.length := by omega
    have hset : isSet s1.results i = true := by
      simpa [isSet] using hsome (getIdx s1.results i) (getIdx_mem s1.results i hlt)
    have hrepl : ∀ r : OperationResult,
        (setIdx s1.results i r).length = i + 1 ∧
        ∀ x ∈ setIdx s1.results i r, x.isSome = true := by
      intro r
      constructor
      · rw [setIdx_length_of_lt s1.results i r hlt, h]
      · intro x hx
        rcases mem_setIdx s1.results i r x hlt hx with h1 | h1
        · simp [h1]
        · exact hsome x h1
    cases thrown with
    | none => simp only [normalize, hset, if_true]; exact ⟨h, hsome⟩
    | some e => exact hrepl _

theorem runRequest_results {V : Type} (R : JsRuntime V) (dur i : Nat) (req : RequestMessage)
    (p : UserProgram V) (s : EntityState)
    (hlen : s.results.length = i) (hsome : ∀ x ∈ s.results, x.isSome = true)
    (hw : wellBehaved p = true) :
    (runRequest R dur i req p s).1.results.length = i + 1 ∧
    ∀ x ∈ (runRequest R dur i req p s).1.results, x.isSome = true := by
  cases p with
  | direct acts thrown =>
    have hc : retCount acts ≤ 1 := of_decide_eq_true hw
    rcases foldl_applyAct_results R dur acts s with ⟨l, hl, hllen, hlsome⟩
    have hsome1 : ∀ x ∈ (acts.foldl (applyAct R dur) s).results, x.isSome = true := by
      rw [hl]
      intro x hx
      rcases List.mem_append.1 hx with hx | hx
      · exact hsome x hx
      · exact hlsome x hx
    have hdisj : (acts.foldl (applyAct R dur) s).results.length = i ∨
        (acts.foldl (applyAct R dur) s).results.length = i + 1 := by
      rw [hl, List.length_append, hlen]
      omega
    exact normalize_results R dur i _ thrown hdisj hsome1
  | delegate f =>
    show (normalize R dur i (runBody R dur req (.delegate f) s).1
        (runBody R dur req (.delegate f) s).2.1).results.length = i + 1 ∧
      ∀ x ∈ (normalize R dur i (runBody R dur req (.delegate f) s).1
        (runBody R dur req (.delegate f) s).2.1).results, x.isSome = true
    cases hd : Entity.dispatchCore R req s f with
    | rejected => simp only [runBody, hd]; exact normalize_results R dur i s none (Or.inl hlen) hsome
    | completed ret selfAfter =>
      simp only [runBody, hd]
      refine normalize_results R dur i _ none (Or.inr ?_) ?_
      · simp [Entity.returnValue, Entity.setState, hlen]
      · intro x hx
        have hx2 : x ∈ s.results ∨ x = some ⟨false, dur, some (R.encode ret)⟩ := by
          simpa [Entity.returnValue, Entity.setState] using hx
        rcases hx2 with hx | hx
        · exact hsome x hx
        · simp [hx]
    | suspended ret selfAfter =>
      simp only [runBody, hd]; exact normalize_results R dur i s none (Or.inl hlen) hsome
    | suspendedRejection =>
      simp only [runBody, hd]; exact normalize_results R dur i s none (Or.inl hlen) hsome

theorem handleLoop_results {V : Type} (R : JsRuntime V) (dur : Nat → Nat)
    (prog : Nat → UserProgram V) (hw : ∀ j, wellBehaved (prog j) = true) :
    ∀ (batch : List RequestMessage) (i : Nat) (s : EntityState)
      (pend : List (EntityState → EntityState)),
      s.results.length = i → (∀ x ∈ s.results, x.isSome = true) →
      (handleLoop R dur prog batch i s pend).1.results.length = i + batch.length ∧
      ∀ x ∈ (handleLoop R dur prog batch i s pend).1.results, x.isSome = true := by
  intro batch
  induction batch with
  | nil => exact fun i s pend hlen hsome => ⟨by simpa using hlen, hsome⟩
  | cons req rest ih =>
    intro i s pend hlen hsome
    have hr := runRequest_results R (dur i) i req (prog i) s hlen hsome (hw i)
    have hrec := ih (i + 1) (runRequest R (dur i) i req (prog i) s).1
      (pend ++ (runRequest R (dur i) i req (prog i) s).2.toList) hr.1 hr.2
    show (handleLoop R dur prog rest (i + 1) (runRequest R (dur i) i req (prog i) s).1
        (pend ++ (runRequest R (dur i) i req (prog i) s).2.toList)).1.results.length =
        i + (req :: rest).length ∧
      ∀ x ∈ (handleLoop R dur prog rest (i + 1) (runRequest R (dur i) i req (prog i) s).1
        (pend ++ (runRequest R (dur i) i req (prog i) s).2.toList)).1.results, x.isSome = true
    refine ⟨?_, hrec.2⟩
    rw [hrec.1]
    simp
    omega

theorem assocFind_assocSet_self {V : Type} (l : List (String × PropVal V)) (p : String)
    (v : PropVal V) : assocFind (assocSet l p v) p = some v := by
  induction l with
  | nil => simp [assocSet, assocFind]
  | cons x t ih =>
    obtain ⟨q, w⟩ := x
    by_cases h : q = p
    · simp [assocSet, assocFind, h]
    · simp [assocSet, assocFind, h, ih]

theorem assocFind_assocSet_ne {V : Type} (l : List (String × PropVal V)) (p q : String)
    (v : PropVal V) (h : q ≠ p) : assocFind (assocSet l p v) q = assocFind l q := by
  induction l with
  | nil =>
    simp only [assocSet, assocFind]
    rw [if_neg (fun hh : p = q => h hh.symm)]
  | cons x t ih =>
    obtain ⟨a, b⟩ := x
    by_cases h2 : a = p
    · subst h2
      simp only [assocSet, if_pos rfl, assocFind]
      rw [if_neg (Ne.symm h), if_neg (Ne.symm h)]
    · simp [assocSet, assocFind, h2, ih]

theorem lookup_setOwn_self {V : Type} (o : JsObj V) (p : String) (v : PropVal V) :
    (o.setOwn p v).lookup p = some v := by
  obtain ⟨levels⟩ := o
  cases levels with
  | nil => simp [JsObj.setOwn, JsObj.lookup, levelsLookup, assocFind]
  | cons l ls => simp [JsObj.setOwn, JsObj.lookup, levelsLookup, assocFind_assocSet_self]

theorem lookup_setOwn_ne {V : Type} (o : JsObj V) (p q : String) (v : PropVal V) (h : q ≠ p) :
    (o.setOwn p v).lookup q = o.lookup q := by
  obtain ⟨levels⟩ := o
  cases levels with
  | nil =>
    simp only [JsObj.setOwn, JsObj.lookup, levelsLookup, assocFind]
    rw [if_neg (fun hh : p = q => h hh.symm)]
  | cons l ls =>
    simp only [JsObj.setOwn, JsObj.lookup, levelsLookup, assocFind_assocSet_ne l p q v h]

theorem assocFind_some_mem {V : Type} (l : List (String × PropVal V)) (p : String)
    (v : PropVal V) (h : assocFind l p = some v) : p ∈ l.map Prod.fst := by
  induction l with
  | nil => simp [assocFind] at h
  | cons x t ih =>
    obtain ⟨q, w⟩ := x
    by_cases h2 : q = p
    · simp [h2]
    · simp only [assocFind, if_neg h2] at h
      simpa using Or.inr (ih h)

theorem lookup_some_mem_collectProps {V : Type} (o : JsObj V) (p : String) (v : PropVal V)
    (h : o.lookup p = some v) : p ∈ collectProps o := by
  obtain ⟨levels⟩ := o
  simp only [JsObj.lookup] at h
  simp only [collectProps, List.mem_flatten]
  induction levels with
  | nil => simp [levelsLookup] at h
  | cons l ls ih =>
    simp only [levelsLookup] at h
    cases hf : assocFind l p with
    | some w =>
      exact ⟨l.map Prod.fst, by simp, assocFind_some_mem l p w hf⟩
    | none =>
      rw [hf] at h
      rcases ih h with ⟨m, hm, hpm⟩
      exact ⟨m, by simp at hm ⊢; exact Or.inr hm, hpm⟩

theorem foldl_stubStep_inv {V : Type} (o : JsObj V) (ps : List String) :
    ∀ acc : JsObj V,
      (∀ q, isFunctionProp (acc.lookup q) = isFunctionProp (o.lookup q)) →
      (∀ q, isFunctionProp (o.lookup q) = false → acc.lookup q = o.lookup q) →
      (∀ q, isFunctionProp ((ps.foldl stubStep acc).lookup q) = isFunctionProp (o.lookup q)) ∧
      (∀ q, isFunctionProp (o.lookup q) = false →
        (ps.foldl stubStep acc).lookup q = o.lookup q) ∧
      (∀ q ∈ ps, isFunctionProp (o.lookup q) = true →
        (ps.foldl stubStep acc).lookup q = some (.stub q)) ∧
      (∀ q, acc.lookup q = some (.stub q) →
        (ps.foldl stubStep acc).lookup q = some (.stub q)) := by
  induction ps with
  | nil => exact fun acc h1 h2 => ⟨h1, h2, by simp, fun q hq => hq⟩
  | cons p ps ih =>
    intro acc h1 h2
    by_cases hp : isFunctionProp (acc.lookup p) = true
    · have hstep : stubStep acc p = acc.setOwn p (.stub p) := by simp [stubStep, hp]
      have h1' : ∀ q, isFunctionProp ((acc.setOwn p (.stub p)).lookup q) =
          isFunctionProp (o.lookup q) := by
        intro q
        by_cases hq : q = p
        · subst hq
          rw [lookup_setOwn_self]
          rw [← h1 q, hp]
          rfl
        · rw [lookup_setOwn_ne acc p q _ hq, h1 q]
      have h2' : ∀ q, isFunctionProp (o.lookup q) = false →
          (acc.setOwn p (.stub p)).lookup q = o.lookup q := by
        intro q hq
        have hqp : q ≠ p := by
          intro hh
          subst hh
          rw [← h1 q, hp] at hq
          exact Bool.true_eq_false.mp hq
        rw [lookup_setOwn_ne acc p q _ hqp]
        exact h2 q hq
      have hrec := ih (acc.setOwn p (.stub p)) h1' h2'
      refine ⟨?_, ?_, ?_, ?_⟩
      · intro q; rw [List.foldl_cons, hstep]; exact hrec.1 q
      · intro q hq; rw [List.foldl_cons, hstep]; exact hrec.2.1 q hq
      · intro q hq hfun
        rw [List.foldl_cons, hstep]
        rcases List.mem_cons.1 hq with hq1 | hq1
        · subst hq1; exact hrec.2.2.2 q (lookup_setOwn_self acc q _)
        · exact hrec.2.2.1 q hq1 hfun
      · intro q hq
        rw [List.foldl_cons, hstep]
        by_cases hqp : q = p
        · subst hqp; exact hrec.2.2.2 q (lookup_setOwn_self acc q _)
        · exact hrec.2.2.2 q (by rw [lookup_setOwn_ne acc p q _ hqp]; exact hq)
    · have hstep : stubStep acc p = acc := by
        simp only [stubStep]
        rw [if_neg hp]
      have hrec := ih acc h1 h2
      refine ⟨?_, ?_, ?_, ?_⟩
      · intro q; rw [List.foldl_cons, hstep]; exact hrec.1 q
      · intro q hq; rw [List.foldl_cons, hstep]; exact hrec.2.1 q hq
      · intro q hq hfun
        rw [List.foldl_cons, hstep]
        rcases List.mem_cons.1 hq with hq1 | hq1
        · subst hq1
          rw [← h1 q] at hfun
          exact absurd hfun hp
        · exact hrec.2.2.1 q hq1 hfun
      · intro q hq; rw [List.foldl_cons, hstep]; exact hrec.2.2.2 q hq

theorem createEntityProxy_stubs {V : Type} (o : JsObj V) :
    ∀ p ∈ collectProps o, isFunctionProp (o.lookup p) = true →
      (createEntityProxy o).lookup p = some (.stub p) := by
  have h := foldl_stubStep_inv o (collectProps o) o (fun q => rfl) (fun q _ => rfl)
  exact h.2.2.1

theorem createEntityProxy_nonfun {V : Type} (o : JsObj V) :
    ∀ q, isFunctionProp (o.lookup q) = false → (createEntityProxy o).lookup q = o.lookup q := by
  have h := foldl_stubStep_inv o (collectProps o) o (fun q => rfl) (fun q _ => rfl)
  exact h.2.1

/-- Claim C1: for every input batch of length N run by the batch driver (with
user programs honoring the context contract of at most one `return` call per
request), the results array at loop completion has exactly N entries, entry i
belonging to request i, all set with no holes, regardless of whether
individual operations succeeded or failed. -/
theorem claim_C1_batch_results {V : Type} (R : JsRuntime V) (dur : Nat → Nat)
    (prog : Nat → UserProgram V) (b : DurableEntityBindingInfo)
    (hw : ∀ j, wellBehaved (prog j) = true) :
    (Entity.handle R dur prog b).1.results.length = b.batch.length ∧
    ∀ x ∈ (Entity.handle R dur prog b).1.results, x.isSome = true := by
  have h := handleLoop_results R dur prog hw b.batch 0
    { entityExists := b.exists_, entityState := b.state, results := [], signals := [] } []
    rfl (by simp)
  exact ⟨by simpa using h.1, h.2⟩

def w1prog : Nat → UserProgram String := fun _ => .direct [.retVal "r"] none

def w1binding : DurableEntityBindingInfo :=
  ⟨⟨"n", "k"⟩, false, none, [⟨"a", none⟩, ⟨"b", none⟩]⟩

/-- Witness for claim C1 at a concrete two-request batch. -/
theorem claim_C1_batch_results_witness :
    (Entity.handle RStr (fun _ => 0) w1prog w1binding).1.results.length = 2 ∧
    ∀ x ∈ (Entity.handle RStr (fun _ => 0) w1prog w1binding).1.results, x.isSome = true := by
  have h := claim_C1_batch_results RStr (fun _ => 0) w1prog w1binding (fun j => rfl)
  exact ⟨h.1, h.2⟩

def c2req : RequestMessage := ⟨"", some (jsonQuote "x")⟩

def c2binding : DurableEntityBindingInfo := ⟨⟨"n", "k"⟩, false, none, [c2req]⟩

/-- Claim C2, evaluated at the failing input: a request whose dispatch raises
(here: empty operation name, so dispatch throws "Undefined operation") is NOT
recorded as a failed OperationResult.  The throw inside the async dispatch
becomes a rejected promise; the driver never awaits `this.fn(context)`, so the
try/catch observes a normal completion and the normalization synthesizes an
empty success (isError = false) for that request. -/
theorem claim_C2_dispatch_failure_not_captured :
    Entity.dispatchCore RStr c2req ⟨false, none, [], []⟩ (fun _ => "base")
      = DispatchOutcome.rejected ∧
    (Entity.handle RStr (fun _ => 0) (fun _ => .delegate (fun _ => "base")) c2binding).1.results
      = [some ⟨false, 0, none⟩] :=
  ⟨rfl, rfl⟩

/-- Claim C3, counterexample: for the explicit call signalEntity(target, "op",
input) with the truthy input "a", the appended Signal's input field is the
double encoding encodeString (encode "a"), not encode "a" as claimed. -/
theorem claim_C3_counterexample :
    ¬ (Entity.signalEntity RStr ⟨false, none, [], []⟩ ⟨"other", "key"⟩ "op" (some "a")).signals
      = [⟨⟨"other", "key"⟩, "op", RStr.encode "a"⟩] := by
  decide

/-- Claim C3 amended: the explicit-shape signalEntity appends exactly one
Signal carrying the given target and name; its input field is empty when the
input argument is absent or falsy, and is the double encoding
encodeString (encode input) when the input is truthy (given that the first
encoding is non-empty, as JSON.stringify of a defined value always is); the
rest of the accumulator is untouched. -/
theorem claim_C3_amended_signal_fields {V : Type} (R : JsRuntime V) (s : EntityState)
    (t : EntityId) (n : String) :
    ((Entity.signalEntity R s t n none).signals = s.signals ++ [⟨t, n, ""⟩]) ∧
    (∀ v, R.truthy v = false →
      (Entity.signalEntity R s t n (some v)).signals = s.signals ++ [⟨t, n, ""⟩]) ∧
    (∀ v, R.truthy v = true → R.encode v ≠ "" →
      (Entity.signalEntity R s t n (some v)).signals
        = s.signals ++ [⟨t, n, R.encodeString (R.encode v)⟩]) ∧
    (∀ i, (Entity.signalEntity R s t n i).entityExists = s.entityExists ∧
      (Entity.signalEntity R s t n i).entityState = s.entityState ∧
      (Entity.signalEntity R s t n i).results = s.results) := by
  refine ⟨?_, ?_, ?_, fun i => ⟨rfl, rfl, rfl⟩⟩
  · simp [Entity.signalEntity, truthyStr]
  · intro v hv
    simp [Entity.signalEntity, hv, truthyStr]
  · intro v hv hne
    simp [Entity.signalEntity, hv, truthyStr, hne]

/-- Witness for the amended claim C3 at the JSON string codec. -/
theorem claim_C3_amended_signal_fields_witness :
    (Entity.signalEntity RStr ⟨false, none, [], []⟩ ⟨"other", "key"⟩ "op" (some "a")).signals
      = [⟨⟨"other", "key"⟩, "op", RStr.encodeString (RStr.encode "a")⟩] := by
  have h := (claim_C3_amended_signal_fields RStr ⟨false, none, [], []⟩ ⟨"other", "key"⟩
    "op").2.2.1 "a" rfl (by decide)
  simpa using h

def c4r0 : RequestMessage := ⟨"go", some (jsonQuote "ab")⟩

def c4r1 : RequestMessage := ⟨"second", none⟩

def c4binding : DurableEntityBindingInfo := ⟨⟨"n", "k"⟩, false, none, [c4r0, c4r1]⟩

def c4prog : Nat → UserProgram String := fun i =>
  if i = 0 then .delegate (fun _ => "base") else .direct [.setSt "w"] none

/-- Claim C4, evaluated at the failing input: request 0's dispatch suspends at
`await result`, but the driver does not await it.  At loop completion request
0's continuation is still pending (the queue has length 1), both requests
already carry synthesized empty-success entries, and the state holds request
1's write; draining the microtask queue afterwards runs request 0's
continuation, which pushes a third result entry and overwrites the state
written by request 1 — so request 1 was processed before request 0 finished. -/
theorem claim_C4_suspension_not_awaited :
    (Entity.handle RStr (fun _ => 0) c4prog c4binding).2.length = 1 ∧
    (Entity.handle RStr (fun _ => 0) c4prog c4binding).1.results
      = [some ⟨false, 0, none⟩, some ⟨false, 0, none⟩] ∧
    (Entity.handle RStr (fun _ => 0) c4prog c4binding).1.entityState = some (jsonQuote "w") ∧
    (drainMicrotasks (Entity.handle RStr (fun _ => 0) c4prog c4binding)).results.length = 3 ∧
    (drainMicrotasks (Entity.handle RStr (fun _ => 0) c4prog c4binding)).entityState
      = some (jsonQuote "after") :=
  ⟨rfl, rfl, rfl, rfl, rfl⟩

/-- Claim C5: after setState v, with only state-preserving context calls in the
rest of the current operation and only state-preserving user programs in the
later requests of the same batch (no intervening setState or destructOnExit),
getState returns exactly v — the round trip through the codec. -/
theorem claim_C5_setState_getState_roundtrip {V : Type} (R : JsRuntime V) (dur : Nat → Nat)
    (durA : Nat) (prog : Nat → UserProgram V) (batch : List RequestMessage) (k : Nat)
    (pend : List (EntityState → EntityState)) (s : EntityState) (v : V)
    (acts : List (UserAct V)) (init : Option V)
    (hrt : R.decode (R.encode v) = some v) (hne : R.encode v ≠ "")
    (hacts : ∀ a ∈ acts, preservesState a = true)
    (hprog : ∀ j, progPreservesState (prog j) = true) :
    Entity.getState R
      (handleLoop R dur prog batch k
        (acts.foldl (applyAct R durA) (Entity.setState R s v)) pend).1 init = some v := by
  have h1 : (acts.foldl (applyAct R durA) (Entity.setState R s v)).entityState
      = some (R.encode v) := by
    rw [foldl_applyAct_entityState R durA acts _ hacts]
    rfl
  have h2 : (handleLoop R dur prog batch k
      (acts.foldl (applyAct R durA) (Entity.setState R s v)) pend).1.entityState
      = some (R.encode v) := by
    rw [handleLoop_entityState R dur prog hprog batch k _ pend, h1]
  simp [Entity.getState, h2, truthyStr, hne, hrt]

def w5prog : Nat → UserProgram String := fun _ => .direct [.getSt none] none

/-- Witness for claim C5: a concrete setState "a", followed by a return and a
signal in the same operation and one state-preserving later request. -/
theorem claim_C5_setState_getState_roundtrip_witness :
    Entity.getState RStr
      (handleLoop RStr (fun _ => 0) w5prog [⟨"later", none⟩] 1
        ([UserAct.retVal "r", UserAct.signalE ⟨"e", "k"⟩ "m" none].foldl (applyAct RStr 0)
          (Entity.setState RStr ⟨false, none, [], []⟩ "a")) []).1 none = some "a" :=
  claim_C5_setState_getState_roundtrip RStr (fun _ => 0) 0 w5prog [⟨"later", none⟩] 1 []
    ⟨false, none, [], []⟩ "a" [UserAct.retVal "r", UserAct.signalE ⟨"e", "k"⟩ "m" none] none
    rfl (by decide) (by decide) (fun j => rfl)

/-- Claim C6: getState returns the decoded blob when state is present and
non-empty; with no usable state it returns the supplied initializer's result,
or no value when none is supplied; and the getState context call leaves the
whole accumulator (state, exists, results, signals) unchanged. -/
theorem claim_C6_getState_cases {V : Type} (R : JsRuntime V) (s : EntityState) (str : String)
    (w : V) (init : Option V) (dur : Nat) :
    (s.entityState = some str → str ≠ "" → Entity.getState R s init = R.decode str) ∧
    (s.entityState = none ∨ s.entityState = some "" →
      Entity.getState R s (some w) = some w) ∧
    (s.entityState = none ∨ s.entityState = some "" → Entity.getState R s none = none) ∧
    (applyAct R dur s (.getSt init) = s) := by
  refine ⟨?_, ?_, ?_, rfl⟩
  · intro h hne
    simp [Entity.getState, h, truthyStr, hne]
  · rintro (h | h) <;> simp [Entity.getState, h, truthyStr]
  · rintro (h | h) <;> simp [Entity.getState, h, truthyStr]

/-- Witness for claim C6: state present and decoded, and initializer fallback. -/
theorem claim_C6_getState_cases_witness :
    Entity.getState RStr ⟨true, some (jsonQuote "a"), [], []⟩ none
      = RStr.decode (jsonQuote "a") ∧
    Entity.getState RStr ⟨false, none, [], []⟩ (some "d") = some "d" := by
  have h := claim_C6_getState_cases RStr ⟨true, some (jsonQuote "a"), [], []⟩ (jsonQuote "a")
    "d" none 0
  have h2 := claim_C6_getState_cases RStr ⟨false, none, [], []⟩ "x" "d" none 0
  exact ⟨h.1 rfl (by decide), h2.2.1 (Or.inl rfl)⟩

/-- Claim C7: across the context operations of a batch, the exists flag drops
to false only via destructOnExit, is set to true by setState and return (and a
false-to-true transition happens only through them), and is untouched by
getState and signalEntity. -/
theorem claim_C7_exists_transitions {V : Type} (R : JsRuntime V) (dur : Nat) (s : EntityState)
    (a : UserAct V) :
    ((applyAct R dur s a).entityExists = false → s.entityExists = true →
      a = .destructOnExit) ∧
    ((∃ v, a = .setSt v) ∨ (∃ v, a = .retVal v) →
      (applyAct R dur s a).entityExists = true) ∧
    ((applyAct R dur s a).entityExists = true → s.entityExists = false →
      (∃ v, a = .setSt v) ∨ (∃ v, a = .retVal v)) ∧
    ((∃ i, a = .getSt i) ∨ (∃ t n inp, a = .signalE t n inp) →
      (applyAct R dur s a).entityExists = s.entityExists) ∧
    (a = .destructOnExit → (applyAct R dur s a).entityExists = false) := by
  cases a <;>
    simp [applyAct, Entity.setState, Entity.returnValue, Entity.destructOnExit,
      Entity.signalEntity]

/-- Witness for claim C7 at concrete accumulators and operations. -/
theorem claim_C7_exists_transitions_witness :
    (applyAct RStr 0 ⟨true, none, [], []⟩ UserAct.destructOnExit).entityExists = false ∧
    (applyAct RStr 0 ⟨false, none, [], []⟩ (UserAct.setSt "x")).entityExists = true ∧
    (applyAct RStr 0 ⟨true, some "s", [], []⟩ (UserAct.getSt none)).entityExists = true := by
  refine ⟨?_, ?_, ?_⟩
  · exact (claim_C7_exists_transitions RStr 0 ⟨true, none, [], []⟩
      UserAct.destructOnExit).2.2.2.2 rfl
  · exact (claim_C7_exists_transitions RStr 0 ⟨false, none, [], []⟩
      (UserAct.setSt "x")).2.1 (Or.inl ⟨"x", rfl⟩)
  · have h := (claim_C7_exists_transitions RStr 0 ⟨true, some "s", [], []⟩
      (UserAct.getSt none)).2.2.2.1 (Or.inl ⟨none, rfl⟩)
    rw [h]

/-- Claim C8: destructOnExit clears the existence flag and the state blob
(visible to any later getState in the batch) and leaves the already-recorded
results and signals ledgers unchanged. -/
theorem claim_C8_destructOnExit_frame {V : Type} (R : JsRuntime V) (s : EntityState) :
    (Entity.destructOnExit s).entityExists = false ∧
    (Entity.destructOnExit s).entityState = none ∧
    (Entity.destructOnExit s).results = s.results ∧
    (Entity.destructOnExit s).signals = s.signals ∧
    Entity.getState R (Entity.destructOnExit s) none = none :=
  ⟨rfl, rfl, rfl, rfl, rfl⟩

/-- Claim C9: a request whose input is absent or empty cannot succeed through
dispatch even when the operation name is non-empty and names a method of the
constructed entity object: getInput yields no value (not an empty argument
array), spreading it throws, and the async dispatch rejects before reaching
setState or return. -/
theorem claim_C9_empty_input_dispatch_rejects {V : Type} (R : JsRuntime V)
    (req : RequestMessage) (s : EntityState) (entityFactory : Unit → V)
    (hname : req.name ≠ "")
    (hmeth : ∀ st : V, R.hasMethod (R.assign (entityFactory ()) st) req.name = true)
    (hinput : req.input = none ∨ req.input = some "") :
    Entity.dispatchCore R req s entityFactory = .rejected := by
  have hgi : Entity.getInput R req = none := by
    rcases hinput with h | h <;> simp [Entity.getInput, h, truthyStr]
  have htr : truthyStr req.name = true := by simp [truthyStr, hname]
  simp only [Entity.dispatchCore, htr, Bool.not_true, Bool.false_eq_true, if_false]
  cases hst : Entity.getState R s (some R.emptyObj) with
  | none => rfl
  | some st =>
    simp only [hmeth st, Bool.not_true, Bool.false_eq_true, if_false, hgi]

/-- Witness for claim C9 at a concrete request with absent input. -/
theorem claim_C9_empty_input_dispatch_rejects_witness :
    Entity.dispatchCore RStr ⟨"go", none⟩ ⟨false, none, [], []⟩ (fun _ => "base")
      = DispatchOutcome.rejected :=
  claim_C9_empty_input_dispatch_rejects RStr ⟨"go", none⟩ ⟨false, none, [], []⟩
    (fun _ => "base") (by decide) (fun st => rfl) (Or.inl rfl)

/-- Claim C10: the typed-shape signalEntity works on the caller-supplied object
mutated in place into the proxy: every property name found on the object or on
its prototype chain whose value is a function is overwritten on the object
itself by a stub recording the call descriptor; calling a stubbed method
captures the operation name and the argument array instead of running business
logic; and the object the typed call hands back is exactly that mutated proxy
(explicit state passing stands in for reference aliasing). -/
theorem claim_C10_typed_signal_proxy {V : Type} (o : JsObj V) (m : String) (args : List V)
    (hm : isFunctionProp (o.lookup m) = true) :
    (∀ p ∈ collectProps o, isFunctionProp (o.lookup p) = true →
      (createEntityProxy o).lookup p = some (.stub p)) ∧
    (createEntityProxy o).call m args = .captured m args ∧
    (∀ (R : JsRuntime V) (s : EntityState) (t : EntityId),
      (Entity.signalEntityTyped R s t o m args).map Prod.snd
        = some (createEntityProxy o)) := by
  have hmm : ∃ pv, o.lookup m = some pv := by
    cases h : o.lookup m with
    | none => rw [h] at hm; simp [isFunctionProp] at hm
    | some pv => exact ⟨pv, rfl⟩
  rcases hmm with ⟨pv, hv⟩
  have hmem : m ∈ collectProps o := lookup_some_mem_collectProps o m pv hv
  have hstub : (createEntityProxy o).lookup m = some (.stub m) :=
    createEntityProxy_stubs o m hmem hm
  have hcall : (createEntityProxy o).call m args = .captured m args := by
    simp [JsObj.call, hstub]
  refine ⟨createEntityProxy_stubs o, hcall, ?_⟩
  intro R s t
  simp [Entity.signalEntityTyped, hcall]

def w10obj : JsObj String :=
  ⟨[[("add", PropVal.func (fun _ => "sum")), ("x", PropVal.data "1")],
    [("toStr", PropVal.func (fun _ => "str"))]]⟩

/-- Witness for claim C10 at a concrete object with one own method, one data
property and one inherited method. -/
theorem claim_C10_typed_signal_proxy_witness :
    (createEntityProxy w10obj).call "add" ["2"] = CallOut.captured "add" ["2"] ∧
    (createEntityProxy w10obj).lookup "toStr" = some (PropVal.stub "toStr") := by
  have h := claim_C10_typed_signal_proxy w10obj "add" ["2"] rfl
  refine ⟨h.2.1, ?_⟩
  exact h.1 "toStr" (by simp [w10obj, collectProps]) rfl

end Durable
